import Mathlib

/-!
# botsendhydro: the message-trigger dispatcher of `bot.js`

A shallow embedding of `norm`, `matchAny`, `TRIGGERS`, the `client.on('message')`
handler and `ensureConfig`, followed by the properties proved about them.

JavaScript strings are modelled as lists of characters.  `String.prototype.toLowerCase` is a
platform builtin that the source calls and does not define: `normWith` and `matchAnyWith` take
it as a parameter, and what is proved of every string is proved for every lower-casing function
with the properties `LowerCasing`.  The handler is run on the catalog and on the sample
messages, which are ASCII, with `toLowerCase`, the action of the builtin on ASCII text.
-/

namespace BotSendHydro

/-- A JavaScript string, as the list of its characters. -/
abbrev Str := List Char

/-! ## `norm` -/

/-- The builtin `.toLowerCase()` as it acts on ASCII text: the letters `A`-`Z` become `a`-`z`,
each in its place.  It is the instance of the builtin with which `norm` and `matchAny` are
evaluated. -/
def toLowerCase (s : Str) : Str := s.map Char.toLower

/-- A string of ASCII characters. -/
def isAscii (s : Str) : Prop := ∀ c ∈ s, c.toNat < 128

instance (s : Str) : Decidable (isAscii s) :=
  inferInstanceAs (Decidable (∀ c ∈ s, c.toNat < 128))

/-- What is assumed of the builtin `String.prototype.toLowerCase`, taken as the parameter
`lower`.  Unicode lower-casing replaces every character by characters that it leaves unchanged
(`stable_out`); a string of characters that it leaves unchanged is left unchanged, the one rule
that looks at the neighbours of a character, final sigma, being a rule for a capital letter
(`fixes_stable`); and ASCII characters are lower-cased by the map of `A`-`Z` to `a`-`z`, each in
its place, whatever stands around them (`ascii`, `ascii_inside`). -/
structure LowerCasing (lower : Str → Str) : Prop where
  stable_out : ∀ s c, c ∈ lower s → lower [c] = [c]
  fixes_stable : ∀ s, (∀ c ∈ s, lower [c] = [c]) → lower s = s
  ascii : ∀ s, isAscii s → lower s = s.map Char.toLower
  ascii_inside : ∀ a q b, isAscii q →
    ∃ a2 b2, lower (a ++ q ++ b) = a2 ++ q.map Char.toLower ++ b2

/-- The step `.replace(/\r/g, '')`: every carriage return is deleted. -/
def removeCR (s : Str) : Str := s.filter (fun c => c != '\r')

/-- The character class `[ \t]`. -/
def isHSpace (c : Char) : Bool := c == ' ' || c == '\t'

/-- The character class of `\n`. -/
def isNewline (c : Char) : Bool := c == '\n'

/-- A global regex replacement `.replace(/[cls]+/g, r)`: scanning left to right, every maximal
run of characters of the class `cls` is replaced by the single character `r`.  The flag tells
whether the character just before the current position belonged to a run (whose replacement
has then been written already). -/
def collapseRuns (cls : Char → Bool) (r : Char) : Bool → Str → Str
  | _, [] => []
  | inRun, c :: cs =>
    if cls c then
      if inRun then collapseRuns cls r true cs else r :: collapseRuns cls r true cs
    else c :: collapseRuns cls r false cs

/-- The flag of `collapseRuns` once the characters of `x` have been scanned: whether the last
character of `x` is of the class (the flag at the start when `x` is empty). -/
def endFlag (cls : Char → Bool) : Bool → Str → Bool
  | b, [] => b
  | _, c :: cs => endFlag cls (cls c) cs

/-- The step `.replace(/[ \t]+/g, ' ')`. -/
def collapseHSpace (s : Str) : Str := collapseRuns isHSpace ' ' false s

/-- The step `.replace(/\n+/g, '\n')`. -/
def collapseNewlines (s : Str) : Str := collapseRuns isNewline '\n' false s

/-- The characters `.trim()` strips: ECMAScript `WhiteSpace` and `LineTerminator`. -/
def isJsSpace (c : Char) : Bool :=
  let n := c.toNat
  n == 0x09 || n == 0x0A || n == 0x0B || n == 0x0C || n == 0x0D || n == 0x20 || n == 0xA0 ||
  n == 0x1680 || (0x2000 ≤ n && n ≤ 0x200A) || n == 0x2028 || n == 0x2029 || n == 0x202F ||
  n == 0x205F || n == 0x3000 || n == 0xFEFF

/-- The builtin `.trim()`: leading and trailing white space is removed. -/
def trim (s : Str) : Str := (s.dropWhile isJsSpace).rdropWhile isJsSpace

/-- The function `norm(s)`, the builtin `.toLowerCase()` being the parameter `lower`:
lower-case, delete `\r`, collapse runs of blanks and tabs to one blank, collapse runs of
newlines to one newline, trim. -/
def normWith (lower : Str → Str) (s : Str) : Str :=
  trim (collapseNewlines (collapseHSpace (removeCR (lower s))))

/-- The function `norm(s)` evaluated with `toLowerCase`. -/
def norm (s : Str) : Str := normWith toLowerCase s

/-! ## `matchAny` and the trigger catalog -/

/-- The builtin `t.includes(p)`: `p` occurs in `t` as a contiguous substring. -/
def includes : Str → Str → Bool
  | [], p => p.isEmpty
  | c :: cs, p => p.isPrefixOf (c :: cs) || includes cs p

/-- The function `matchAny(text, patterns)`, the builtin `.toLowerCase()` being the parameter
`lower`: some pattern, normalised, occurs in the normalised text. -/
def matchAnyWith (lower : Str → Str) (text : Str) (patterns : List Str) : Bool :=
  let t := normWith lower text
  patterns.any (fun p => includes t (normWith lower p))

/-- The function `matchAny(text, patterns)` evaluated with `toLowerCase`. -/
def matchAny (text : Str) (patterns : List Str) : Bool :=
  matchAnyWith toLowerCase text patterns

/-- The string `q` is the phrase `p` with some letters `A`-`Z`, `a`-`z` written in the other
case, some blanks or tabs of `p` accompanied by further blanks or tabs, and some line breaks of
`p` followed by further line breaks. -/
inductive Variant (p : Str) : Str → Prop
  | same : Variant p p
  | letterCase (u v : Str) (c d : Char) :
      c.toLower = d.toLower → Variant p (u ++ c :: v) → Variant p (u ++ d :: v)
  | blankAfter (u v : Str) (c d : Char) :
      isHSpace c = true → isHSpace d = true → Variant p (u ++ c :: v) →
        Variant p (u ++ c :: d :: v)
  | blankBefore (u v : Str) (c d : Char) :
      isHSpace c = true → isHSpace d = true → Variant p (u ++ c :: v) →
        Variant p (u ++ d :: c :: v)
  | blankLine (u v : Str) :
      Variant p (u ++ '\n' :: v) → Variant p (u ++ '\n' :: '\n' :: v)

/-- The four keys of `TRIGGERS`, in the order the handler tests them. -/
inductive Phase
  | askCode
  | askImg1
  | askImg2
  | doneMsg
  deriving DecidableEq, Repr

/-- The constant `TRIGGERS`. -/
def TRIGGERS : Phase → List Str
  | .askCode =>
    ["silakan tuliskan kode unik yang ada di balik tutup botol hydroplus".toList,
     "pastikan kode unik berjumlah 9 karakter".toList]
  | .askImg1 =>
    ["mohon kirimkan bukti foto kode unik di balik tutup botol hydroplus".toList,
     "pastikan kode unik pada foto terbaca dengan jelas".toList]
  | .askImg2 =>
    ["untuk verifikasi lebih lanjut mohon kirimkan foto ktp kamu".toList,
     "pastikan foto ktp kamu terbaca dengan jelas".toList]
  | .doneMsg =>
    ["terima kasih, ktp dan kode unik kamu berhasil diproses".toList,
     "mohon kesediaannya menunggu konfirmasi dalam waktu 3x24 jam".toList]

/-! ## The `message` handler -/

/-- The configuration object `cfg` the handler closes over. -/
structure Config where
  target : Str
  code : Str
  img1 : Str
  img2 : Str
  deriving DecidableEq, Repr

/-- An inbound message: `msg.from` and `msg.body` (which may be absent).  The field
`msg.timestamp`, a Unix time, only feeds the time printed by the echo line. -/
structure Msg where
  sender : Str
  body : Option Str
  deriving DecidableEq, Repr

/-- The awaited calls of the handler.  `reply t` is `msg.reply(t)`, `react e` is `msg.react(e)`,
`sendMedia chat path` is `client.sendMessage(chat, MessageMedia.fromFilePath(path))`. -/
inductive Outbound
  | reply (text : Str)
  | sendMedia (chatId : Str) (path : Str)
  | react (emoji : Str)
  deriving DecidableEq, Repr

/-- The console lines of the handler.  `echo` stands for the two lines that print every
message of the counterpart, the header and the body; the time printed in the header is left
out. -/
inductive Entry
  | echo (target : Str) (body : Str)
  | sentCode (code : Str)
  | sentImg1 (path : Str)
  | missingImg1 (path : Str)
  | sentImg2 (path : Str)
  | missingImg2 (path : Str)
  | done
  | other
  | handlerError
  deriving DecidableEq, Repr

/-- What the handler does, in order: a call issued to the transport or a console line. -/
inductive Effect
  | out (o : Outbound)
  | log (e : Entry)
  deriving DecidableEq, Repr

/-- How a block of code ends: normally, or by a thrown error. -/
inductive Completion
  | normal
  | thrown
  deriving DecidableEq, Repr

/-- The world a message is handled in: `existsSync` is `fs.existsSync`, `fails` tells which awaited
calls reject. -/
structure World where
  existsSync : Str → Bool
  fails : Outbound → Bool

/-- The text replied when `cfg.img1` is not on disk. -/
def apology1 : Str := "Maaf, file gambar1 tidak ditemukan di server.".toList

/-- The text replied when `cfg.img2` is not on disk. -/
def apology2 : Str := "Maaf, file gambar2 tidak ditemukan di server.".toList

/-- The emoji of `msg.react`. -/
def checkMark : Str := "✅".toList

/-- The chat id of the counterpart, the template string with `cfg.target` and `@c.us`. -/
def chatIdOf (cfg : Config) : Str := cfg.target ++ "@c.us".toList

/-- The statement `await call; <after>; return;` inside the `try` block: the call is issued;
when it rejects the block is left by the error and `after` does not run. -/
def awaitThen (w : World) (o : Outbound) (after : List Effect) : List Effect × Completion :=
  if w.fails o then ([Effect.out o], Completion.thrown)
  else (Effect.out o :: after, Completion.normal)

/-- The body of the `try` block of the handler. -/
def tryBlock (cfg : Config) (w : World) (msg : Msg) : List Effect × Completion :=
  if msg.sender ≠ chatIdOf cfg then ([], Completion.normal)
  else
    let body := msg.body.getD []
    let echo := Effect.log (Entry.echo cfg.target body)
    if matchAny body (TRIGGERS Phase.askCode) then
      let r := awaitThen w (Outbound.reply cfg.code) [Effect.log (Entry.sentCode cfg.code)]
      (echo :: r.1, r.2)
    else if matchAny body (TRIGGERS Phase.askImg1) then
      if w.existsSync cfg.img1 then
        let r := awaitThen w (Outbound.sendMedia msg.sender cfg.img1)
          [Effect.log (Entry.sentImg1 cfg.img1)]
        (echo :: r.1, r.2)
      else
        let r := awaitThen w (Outbound.reply apology1) []
        (echo :: Effect.log (Entry.missingImg1 cfg.img1) :: r.1, r.2)
    else if matchAny body (TRIGGERS Phase.askImg2) then
      if w.existsSync cfg.img2 then
        let r := awaitThen w (Outbound.sendMedia msg.sender cfg.img2)
          [Effect.log (Entry.sentImg2 cfg.img2)]
        (echo :: r.1, r.2)
      else
        let r := awaitThen w (Outbound.reply apology2) []
        (echo :: Effect.log (Entry.missingImg2 cfg.img2) :: r.1, r.2)
    else if matchAny body (TRIGGERS Phase.doneMsg) then
      let r := awaitThen w (Outbound.react checkMark) []
      (echo :: Effect.log Entry.done :: r.1, r.2)
    else ([echo, Effect.log Entry.other], Completion.normal)

/-- The handler of `client.on('message', ...)`: the `try` block, and the `catch` block that
prints the error and ends normally. -/
def handler (cfg : Config) (w : World) (msg : Msg) : List Effect × Completion :=
  match tryBlock cfg w msg with
  | (tr, Completion.normal) => (tr, Completion.normal)
  | (tr, Completion.thrown) => (tr ++ [Effect.log Entry.handlerError], Completion.normal)

/-- The calls to the transport among a list of effects, in order. -/
def outbound : List Effect → List Outbound
  | [] => []
  | Effect.out o :: es => o :: outbound es
  | Effect.log _ :: es => outbound es

/-- The console lines among a list of effects, in order. -/
def logged : List Effect → List Entry
  | [] => []
  | Effect.out _ :: es => logged es
  | Effect.log e :: es => e :: logged es

/-- A message event: the message and the world it arrives in. -/
structure Event where
  msg : Msg
  world : World

/-- The session: the transport hands every inbound message to the handler, one at a time in
arrival order; the handler keeps nothing between messages but `cfg`. -/
def runSession (cfg : Config) : List Event → List Effect
  | [] => []
  | e :: es => (handler cfg e.world e.msg).1 ++ runSession cfg es

/-- The world in which no awaited call rejects. -/
def noFailure (ex : Str → Bool) : World := { existsSync := ex, fails := fun _ => false }

/-! ### Reading the handler -/

/-- The first key of `TRIGGERS`, in the order `askCode`, `askImg1`, `askImg2`, `doneMsg`, whose
phrase list `matchAny` accepts for the body. -/
def firstPhase (body : Str) : Option Phase :=
  [Phase.askCode, Phase.askImg1, Phase.askImg2, Phase.doneMsg].find?
    (fun ph => matchAny body (TRIGGERS ph))

/-- Position of a phase in the order of the tests. -/
def Phase.rank : Phase → Nat
  | .askCode => 0
  | .askImg1 => 1
  | .askImg2 => 2
  | .doneMsg => 3

/-- The response that belongs to a phase: the calls the branch of that phase issues. -/
def phaseAction (cfg : Config) (ex : Str → Bool) (sender : Str) : Phase → List Outbound
  | .askCode => [Outbound.reply cfg.code]
  | .askImg1 =>
    if ex cfg.img1 then [Outbound.sendMedia sender cfg.img1] else [Outbound.reply apology1]
  | .askImg2 =>
    if ex cfg.img2 then [Outbound.sendMedia sender cfg.img2] else [Outbound.reply apology2]
  | .doneMsg => [Outbound.react checkMark]

/-! ## `ensureConfig` -/

/-- The four variables read from `process.env`; a variable is a string or undefined. -/
structure Env where
  WA_TARGET : Option Str
  INIT_CODE : Option Str
  IMG1_PATH : Option Str
  IMG2_PATH : Option Str

/-- A value returned by `JSON.parse`: `null`, a boolean, a number (a finite one, as the
rational it is), a string, an array, or an object with its own properties. -/
inductive Json
  | null
  | bool (b : Bool)
  | num (x : Rat)
  | str (s : Str)
  | arr (items : List Json)
  | obj (props : List (Str × Json))

/-- Truthiness, as `||` and `!` test it: `null`, `false`, `0` and `''` are falsy. -/
def Json.truthy : Json → Bool
  | .null => false
  | .bool b => b
  | .num x => decide (x ≠ 0)
  | .str s => !s.isEmpty
  | .arr _ => true
  | .obj _ => true

/-- An error thrown by the runtime. -/
inductive JsError
  | typeError

/-- The property read `v.key`, for `key` one of `target`, `code`, `img1`, `img2`: a `TypeError`
on `null`, the own property of an object (undefined when absent), undefined on a boolean, a
number, a string or an array. -/
def Json.prop (v : Json) (key : Str) : Except JsError (Option Json) :=
  match v with
  | .null => .error .typeError
  | .obj props => .ok (props.lookup key)
  | _ => .ok none

/-- The object `cfg` that `ensureConfig` builds and returns.  Its fields hold whatever the
sources gave; when the four are strings it is the `Config` the handler closes over. -/
structure CfgObject where
  target : Json
  code : Json
  img1 : Json
  img2 : Json

/-- What the user types at the four prompts, should they be asked. -/
structure Answers where
  target : Str
  code : Str
  img1 : Str
  img2 : Str

/-- The expression `e || fileCfg.key || ''`, with `e` a variable of the environment: `e` when
it is set and non-empty; else the value of `fileCfg.key` when it is truthy, as it is; else
`''`.  The property `fileCfg.key` is read only when `e` is falsy. -/
def firstTruthy (e : Option Str) (fileCfg : Json) (key : Str) : Except JsError Json :=
  match e with
  | some (c :: cs) => .ok (.str (c :: cs))
  | _ =>
    match fileCfg.prop key with
    | .error err => .error err
    | .ok (some v) => .ok (if v.truthy then v else .str [])
    | .ok none => .ok (.str [])

/-- The statement `if (!x) x = (await ask(...)).trim();`. -/
def askIfEmpty (x : Json) (answer : Str) : Json :=
  if x.truthy then x else .str (trim answer)

/-- The function `ensureConfig`: per field the environment variable, else the value of the
file, else `''`; a field still falsy is asked for once.  `file` is what `JSON.parse` returns
for `config.json`, and `none` when the file is absent or does not parse (`fileCfg` is then
`{}`).  The calls that create the data directory and write `config.json` are taken to
succeed. -/
def ensureConfig (env : Env) (file : Option Json) (ans : Answers) : Except JsError CfgObject :=
  let fileCfg : Json := file.getD (.obj [])
  match firstTruthy env.WA_TARGET fileCfg "target".toList with
  | .error err => .error err
  | .ok target =>
    match firstTruthy env.INIT_CODE fileCfg "code".toList with
    | .error err => .error err
    | .ok code =>
      match firstTruthy env.IMG1_PATH fileCfg "img1".toList with
      | .error err => .error err
      | .ok img1 =>
        match firstTruthy env.IMG2_PATH fileCfg "img2".toList with
        | .error err => .error err
        | .ok img2 =>
          .ok { target := askIfEmpty target ans.target
                code := askIfEmpty code ans.code
                img1 := askIfEmpty img1 ans.img1
                img2 := askIfEmpty img2 ans.img2 }

/-! ### Reading `ensureConfig` -/

/-- The environment variable is set and not empty. -/
def envSet (e : Option Str) : Prop := ∃ s, e = some s ∧ s ≠ []

/-- The value `config.json` gives for a key: the own property of the parsed object, and
nothing when the file is absent, does not parse, or does not parse to an object. -/
def fileValue (file : Option Json) (key : Str) : Option Json :=
  match file with
  | some (.obj props) => props.lookup key
  | _ => none

/-- The value is a string and not the empty one. -/
def Json.isNonEmptyString (v : Json) : Prop := ∃ s, v = .str s ∧ s ≠ []

/-- How a field `v` of the returned configuration depends on its environment variable `e`, on
the value `f` that `config.json` gives for it and on the answer typed at its prompt: it is the
variable when that is set and non-empty; else the value of the file when that is truthy,
unchanged; else the answer, trimmed.  Hence it is a non-empty string exactly when the variable
is set and non-empty, or else the file gives a non-empty string, or else the file gives no
truthy value and the trimmed answer is not empty. -/
def FieldRule (e : Option Str) (f : Option Json) (answer : Str) (v : Json) : Prop :=
  (∀ s, e = some s → s ≠ [] → v = .str s) ∧
  (¬ envSet e → ∀ j, f = some j → j.truthy = true → v = j) ∧
  (¬ envSet e → (∀ j, f = some j → j.truthy = false) → v = .str (trim answer)) ∧
  (v.isNonEmptyString ↔
    envSet e ∨ (¬ envSet e ∧ ∃ j, f = some j ∧ j.isNonEmptyString) ∨
      (¬ envSet e ∧ (∀ j, f = some j → j.truthy = false) ∧ trim answer ≠ []))

/-! ## Sample inputs -/

/-- A configuration with the example values of the prompts. -/
def sampleCfg : Config :=
  { target := "6281234567890".toList
    code := "F123ABCDE".toList
    img1 := "/home/bot/tutup.jpg".toList
    img2 := "/home/bot/ktp.jpg".toList }

/-- A disk on which no path exists. -/
def noFiles : Str → Bool := fun _ => false

/-- A disk on which every path exists. -/
def allFiles : Str → Bool := fun _ => true

/-- A world in which every awaited call rejects. -/
def allFail (ex : Str → Bool) : World := { existsSync := ex, fails := fun _ => true }

/-- A message of the counterpart of `sampleCfg`. -/
def fromTarget (body : String) : Msg :=
  { sender := "6281234567890@c.us".toList, body := some body.toList }

/-- A message of somebody else. -/
def fromStranger (body : String) : Msg :=
  { sender := "6289999999999@c.us".toList, body := some body.toList }

/-- The request for the code, as the counterpart words it. -/
def askCodeText : String :=
  "Silakan tuliskan KODE UNIK yang ada di balik tutup botol HydroPlus, pastikan kode unik berjumlah 9 karakter"

/-- The request for the first picture. -/
def askImg1Text : String :=
  "mohon kirimkan bukti foto kode unik di balik tutup botol hydroplus"

/-- The closing message of the counterpart. -/
def doneText : String :=
  "Terima kasih, KTP dan kode unik kamu berhasil diproses. Mohon kesediaannya menunggu konfirmasi dalam waktu 3x24 jam."

/-- A body with a phrase of `askCode` and a phrase of `askImg1`. -/
def twoPhaseText : String :=
  "Pastikan kode unik berjumlah 9 karakter.\nPastikan kode unik pada foto terbaca dengan jelas."

/-- The request for the code arriving from the counterpart, no call failing. -/
def askCodeEvent : Event :=
  { msg := fromTarget askCodeText, world := noFailure noFiles }

/-- The same event in the world without failures. -/
def calm (e : Event) : Event :=
  { msg := e.msg, world := noFailure e.world.existsSync }

/-- An environment without any of the four variables. -/
def emptyEnv : Env :=
  { WA_TARGET := none, INIT_CODE := none, IMG1_PATH := none, IMG2_PATH := none }

/-- A `config.json` whose `target` is written as a number. -/
def numericFile : Json :=
  .obj [("target".toList, .num 6281234567890), ("code".toList, .str "F123ABCDE".toList)]

/-- An environment with the path of the first picture only. -/
def img1Env : Env :=
  { WA_TARGET := none, INIT_CODE := some [], IMG1_PATH := some "/home/bot/tutup.jpg".toList,
    IMG2_PATH := none }

/-- The user types a path between blanks at the last prompt. -/
def pathAnswers : Answers :=
  { target := [], code := [], img1 := [], img2 := "  /home/bot/ktp.jpg ".toList }

/-- The user presses return, or types blanks only, at every prompt. -/
def blankAnswers : Answers :=
  { target := [], code := "   ".toList, img1 := [], img2 := "\t".toList }

/-- The second phrase of `askCode`. -/
def codePhrase : Str := "pastikan kode unik berjumlah 9 karakter".toList

/-- The phrase `codePhrase` with a capital and a doubled blank. -/
def codePhraseVariant : Str := "Pastikan  kode unik berjumlah 9 karakter".toList

/-- The phrase `codePhrase` with a blank line added after one of its blanks. -/
def blankLineText : Str := "pastikan kode unik \n\nberjumlah 9 karakter".toList

/-- A text in which `codePhraseVariant` stands. -/
def codePhraseMessage : Str :=
  "Halo kak,\n".toList ++ codePhraseVariant ++ " ya.".toList

/-! ## Lemmas on `norm` -/

theorem toNat_ofNat_small (n : Nat) (h : n < 0xd800) : (Char.ofNat n).toNat = n := by
  have hv : n.isValidChar := Or.inl h
  simp only [Char.ofNat, hv, dite_true, Char.ofNatAux, Char.toNat]
  rfl

/-- Lower-casing a character twice is lower-casing it once. -/
theorem toLower_toLower (c : Char) : c.toLower.toLower = c.toLower := by
  by_cases h : c.toNat ≥ 65 ∧ c.toNat ≤ 90
  · have h1 : c.toLower = Char.ofNat (c.toNat + 32) := by
      simp only [Char.toLower, h, and_self, if_true]
    have h2 : (Char.ofNat (c.toNat + 32)).toNat = c.toNat + 32 :=
      toNat_ofNat_small _ (by omega)
    rw [h1]
    have h3 : ¬ ((Char.ofNat (c.toNat + 32)).toNat ≥ 65 ∧
        (Char.ofNat (c.toNat + 32)).toNat ≤ 90) := by
      rw [h2]; omega
    simp only [Char.toLower, h3, if_false]
  · have h1 : c.toLower = c := by
      simp only [Char.toLower, h, if_false]
    rw [h1, h1]

theorem collapseRuns_length_le (cls : Char → Bool) (r : Char) (b : Bool) (s : Str) :
    (collapseRuns cls r b s).length ≤ s.length := by
  induction s generalizing b with
  | nil => simp [collapseRuns]
  | cons c cs ih =>
    simp only [collapseRuns]
    split
    · split
      · exact Nat.le_succ_of_le (ih true)
      · simpa using ih true
    · simpa using ih false

theorem collapseRuns_mem (cls : Char → Bool) (r : Char) (b : Bool) (s : Str) (c : Char)
    (h : c ∈ collapseRuns cls r b s) : c = r ∨ c ∈ s := by
  induction s generalizing b with
  | nil => simp [collapseRuns] at h
  | cons d ds ih =>
    simp only [collapseRuns] at h
    split at h
    · split at h
      · rcases ih true h with h1 | h1
        · exact Or.inl h1
        · exact Or.inr (List.mem_cons_of_mem _ h1)
      · rcases List.mem_cons.1 h with h1 | h1
        · exact Or.inl h1
        · rcases ih true h1 with h2 | h2
          · exact Or.inl h2
          · exact Or.inr (List.mem_cons_of_mem _ h2)
    · rcases List.mem_cons.1 h with h1 | h1
      · exact Or.inr (by simp [h1])
      · rcases ih false h1 with h2 | h2
        · exact Or.inl h2
        · exact Or.inr (List.mem_cons_of_mem _ h2)

/-- Scanning `x ++ y` is scanning `x`, then `y` with the flag `x` leaves. -/
theorem collapseRuns_append (cls : Char → Bool) (r : Char) (b : Bool) (x y : Str) :
    collapseRuns cls r b (x ++ y) =
      collapseRuns cls r b x ++ collapseRuns cls r (endFlag cls b x) y := by
  induction x generalizing b with
  | nil => simp [collapseRuns, endFlag]
  | cons c cs ih =>
    by_cases hc : cls c = true <;> cases b <;> simp [collapseRuns, endFlag, hc, ih]

/-- The flag only decides whether the replacement of a leading run is written. -/
theorem collapseRuns_flag (cls : Char → Bool) (r : Char) (b : Bool) (y : Str) :
    ∃ w, (w = [] ∨ w = [r]) ∧ collapseRuns cls r false y = w ++ collapseRuns cls r b y := by
  cases b with
  | false => exact ⟨[], Or.inl rfl, rfl⟩
  | true =>
    cases y with
    | nil => exact ⟨[], Or.inl rfl, rfl⟩
    | cons c cs =>
      by_cases hc : cls c = true
      · exact ⟨[r], Or.inr rfl, by simp [collapseRuns, hc]⟩
      · exact ⟨[], Or.inl rfl, by simp [collapseRuns, hc]⟩

/-- A fixed string has a fixed tail. -/
theorem collapseRuns_fixed_tail (cls : Char → Bool) (r : Char) (b : Bool) (c : Char) (cs : Str)
    (h : collapseRuns cls r b (c :: cs) = c :: cs) :
    collapseRuns cls r (cls c) cs = cs := by
  simp only [collapseRuns] at h
  split at h
  · next hc =>
    split at h
    · have hl := collapseRuns_length_le cls r true cs
      rw [h] at hl
      simp at hl
    · rw [hc]
      exact (List.cons.inj h).2
  · next hc =>
    have hc0 : cls c = false := by simpa using hc
    rw [hc0]
    exact (List.cons.inj h).2

/-- A string fixed under some flag is fixed under the flag `false`. -/
theorem collapseRuns_fixed_false (cls : Char → Bool) (r : Char) (b : Bool) (s : Str)
    (h : collapseRuns cls r b s = s) : collapseRuns cls r false s = s := by
  cases b with
  | false => exact h
  | true =>
    cases s with
    | nil => rfl
    | cons c cs =>
      by_cases hc : cls c = true
      · simp only [collapseRuns, hc, if_true] at h
        have hl := collapseRuns_length_le cls r true cs
        rw [h] at hl
        simp at hl
      · simp only [collapseRuns, hc, if_false] at h ⊢
        exact h

/-- A prefix of a fixed string is fixed. -/
theorem collapseRuns_fixed_left (cls : Char → Bool) (r : Char) (b : Bool) (x y : Str)
    (h : collapseRuns cls r b (x ++ y) = x ++ y) : collapseRuns cls r b x = x := by
  have h1 := collapseRuns_append cls r b x y
  rw [h] at h1
  have hx := collapseRuns_length_le cls r b x
  have hy := collapseRuns_length_le cls r (endFlag cls b x) y
  have hlen : (collapseRuns cls r b x).length = x.length := by
    have := congrArg List.length h1
    simp only [List.length_append] at this
    omega
  exact ((List.append_inj h1 hlen.symm).1).symm

/-- A suffix of a fixed string is fixed. -/
theorem collapseRuns_fixed_right (cls : Char → Bool) (r : Char) (b : Bool) (x y : Str)
    (h : collapseRuns cls r b (x ++ y) = x ++ y) : collapseRuns cls r false y = y := by
  have h1 := collapseRuns_append cls r b x y
  rw [h] at h1
  have hx := collapseRuns_length_le cls r b x
  have hy := collapseRuns_length_le cls r (endFlag cls b x) y
  have hlen : (collapseRuns cls r b x).length = x.length := by
    have := congrArg List.length h1
    simp only [List.length_append] at this
    omega
  exact collapseRuns_fixed_false cls r _ y ((List.append_inj h1 hlen.symm).2).symm

/-- The result of a collapse is fixed by the collapse. -/
theorem collapseRuns_collapseRuns (cls : Char → Bool) (r : Char) (hr : cls r = true) (s : Str) :
    collapseRuns cls r true (collapseRuns cls r true s) = collapseRuns cls r true s ∧
      collapseRuns cls r false (collapseRuns cls r false s) = collapseRuns cls r false s ∧
      collapseRuns cls r false (collapseRuns cls r true s) = collapseRuns cls r true s := by
  induction s with
  | nil => simp [collapseRuns]
  | cons c cs ih =>
    by_cases hc : cls c = true
    · simp [collapseRuns, hc, hr, ih.1, ih.2.2]
    · simp [collapseRuns, hc, ih.2.1]

/-- Collapsing the newlines of a string without runs of blanks creates no run of blanks. -/
theorem collapseNewlines_keeps_fixed (v : Str) :
    (∀ g, collapseRuns isHSpace ' ' g v = v →
      collapseRuns isHSpace ' ' g (collapseRuns isNewline '\n' false v) =
        collapseRuns isNewline '\n' false v) ∧
    (collapseRuns isHSpace ' ' false v = v →
      collapseRuns isHSpace ' ' false (collapseRuns isNewline '\n' true v) =
        collapseRuns isNewline '\n' true v) := by
  induction v with
  | nil => simp [collapseRuns]
  | cons c cs ih =>
    obtain ⟨ih1, ih2⟩ := ih
    by_cases hn : isNewline c = true
    · have hc : c = '\n' := by simpa [isNewline] using hn
      subst hc
      have hh : isHSpace '\n' = false := by decide
      constructor
      · intro g hfix
        have ht := collapseRuns_fixed_tail _ _ _ _ _ hfix
        rw [hh] at ht
        simp only [collapseRuns, hn, if_true, Bool.false_eq_true, if_false, hh]
        rw [ih2 ht]
      · intro hfix
        have ht := collapseRuns_fixed_tail _ _ _ _ _ hfix
        rw [hh] at ht
        simp only [collapseRuns, hn, if_true]
        exact ih2 ht
    · have key : ∀ g, collapseRuns isHSpace ' ' g (c :: cs) = c :: cs →
          collapseRuns isHSpace ' ' g (c :: collapseRuns isNewline '\n' false cs) =
            c :: collapseRuns isNewline '\n' false cs := by
        intro g hfix
        have ht := collapseRuns_fixed_tail _ _ _ _ _ hfix
        have h1 := ih1 _ ht
        by_cases hh : isHSpace c = true
        · rw [hh] at h1
          cases g with
          | false =>
            simp only [collapseRuns, hh, if_true, Bool.false_eq_true, if_false] at hfix ⊢
            rw [h1, (List.cons.inj hfix).1]
          | true =>
            simp only [collapseRuns, hh, if_true] at hfix
            have hl := collapseRuns_length_le isHSpace ' ' true cs
            rw [hfix] at hl
            simp at hl
        · have hh0 : isHSpace c = false := by simpa using hh
          rw [hh0] at h1
          simp [collapseRuns, hh0, h1]
      constructor
      · intro g hfix
        simp only [collapseRuns, hn, if_false]
        exact key g hfix
      · intro hfix
        simp only [collapseRuns, hn, if_false]
        exact key false hfix

theorem mem_of_mem_trim (s : Str) (c : Char) (h : c ∈ trim s) : c ∈ s :=
  (List.dropWhile_suffix isJsSpace).subset
    ((List.rdropWhile_prefix isJsSpace (s.dropWhile isJsSpace)).subset h)

/-- Trimming a string that a collapse fixes gives a string that the collapse fixes. -/
theorem collapseRuns_trim (cls : Char → Bool) (r : Char) (s : Str)
    (h : collapseRuns cls r false s = s) : collapseRuns cls r false (trim s) = trim s := by
  obtain ⟨t, ht⟩ := List.dropWhile_suffix (l := s) isJsSpace
  obtain ⟨t2, ht2⟩ := List.rdropWhile_prefix isJsSpace (s.dropWhile isJsSpace)
  have h1 : collapseRuns cls r false (s.dropWhile isJsSpace) = s.dropWhile isJsSpace := by
    apply collapseRuns_fixed_right cls r false t
    rw [ht]; exact h
  apply collapseRuns_fixed_left cls r false _ t2
  unfold trim
  rw [ht2]; exact h1

/-- Trimming twice is trimming once. -/
theorem trim_trim (s : Str) : trim (trim s) = trim s := by
  unfold trim
  have h1 : ((s.dropWhile isJsSpace).rdropWhile isJsSpace).dropWhile isJsSpace =
      (s.dropWhile isJsSpace).rdropWhile isJsSpace := by
    obtain ⟨t2, ht2⟩ := List.rdropWhile_prefix isJsSpace (s.dropWhile isJsSpace)
    cases hd : (s.dropWhile isJsSpace).rdropWhile isJsSpace with
    | nil => rfl
    | cons a as =>
      rw [hd] at ht2
      have hne : s.dropWhile isJsSpace ≠ [] := by
        rw [← ht2]; simp
      have hhead := List.head_dropWhile_not isJsSpace s hne
      have ha : (s.dropWhile isJsSpace).head hne = a := by
        simp [← ht2]
      rw [ha] at hhead
      simp [List.dropWhile_cons, hhead]
  rw [h1, List.rdropWhile_idempotent]

/-- The function `toLowerCase` has the properties assumed of the builtin. -/
theorem toLowerCase_lowerCasing : LowerCasing toLowerCase where
  stable_out := by
    intro s c hc
    simp only [toLowerCase, List.mem_map] at hc
    obtain ⟨d, _, hd⟩ := hc
    simp [toLowerCase, ← hd, toLower_toLower]
  fixes_stable := by
    intro s hs
    unfold toLowerCase
    conv_rhs => rw [← List.map_id s]
    apply List.map_congr_left
    intro c hc
    have := hs c hc
    simpa [toLowerCase] using this
  ascii := fun _ _ => rfl
  ascii_inside := by
    intro a q b _
    exact ⟨toLowerCase a, toLowerCase b, by simp [toLowerCase]⟩

/-- Every character of `normWith lower s` is left unchanged by `lower`, and none is a carriage
return. -/
theorem normWith_chars (lower : Str → Str) (hl : LowerCasing lower) (s : Str) (c : Char)
    (h : c ∈ normWith lower s) : lower [c] = [c] ∧ c ≠ '\r' := by
  have hsp : lower [' '] = [' '] := hl.ascii [' '] (by intro c hc; simp at hc; subst hc; decide)
  have hnl : lower ['\n'] = ['\n'] :=
    hl.ascii ['\n'] (by intro c hc; simp at hc; subst hc; decide)
  have h3 := mem_of_mem_trim _ _ h
  rcases collapseRuns_mem _ _ _ _ _ h3 with h2 | h2
  · subst h2; exact ⟨hnl, by decide⟩
  · rcases collapseRuns_mem _ _ _ _ _ h2 with h1 | h1
    · subst h1; exact ⟨hsp, by decide⟩
    · simp only [removeCR, List.mem_filter] at h1
      exact ⟨hl.stable_out s c h1.1, by simpa using h1.2⟩

/-- The function `norm` fixes its own results. -/
theorem normWith_fixed (lower : Str → Str) (hl : LowerCasing lower) (s : Str) :
    normWith lower (normWith lower s) = normWith lower s := by
  have hlow : lower (normWith lower s) = normWith lower s :=
    hl.fixes_stable _ fun c hc => (normWith_chars lower hl s c hc).1
  have hcr : removeCR (normWith lower s) = normWith lower s := by
    unfold removeCR
    rw [List.filter_eq_self]
    intro c hc
    simpa using (normWith_chars lower hl s c hc).2
  have hH : collapseHSpace (normWith lower s) = normWith lower s := by
    unfold collapseHSpace normWith
    apply collapseRuns_trim
    unfold collapseNewlines
    exact (collapseNewlines_keeps_fixed _).1 false
      (collapseRuns_collapseRuns isHSpace ' ' (by decide) _).2.1
  have hN : collapseNewlines (normWith lower s) = normWith lower s := by
    unfold collapseNewlines normWith
    apply collapseRuns_trim
    exact (collapseRuns_collapseRuns isNewline '\n' (by decide) _).2.1
  have hT : trim (normWith lower s) = normWith lower s := by
    unfold normWith
    exact trim_trim _
  have hstep : normWith lower (normWith lower s) =
      trim (collapseNewlines (collapseHSpace (removeCR (lower (normWith lower s))))) := rfl
  rw [hstep, hlow, hcr, hH, hN, hT]

/-! ## Lemmas on `matchAny` -/

/-- The builtin `includes` decides whether the pattern is a contiguous part of the text. -/
theorem includes_iff (t p : Str) : includes t p = true ↔ p <:+: t := by
  induction t with
  | nil => cases p <;> simp [includes]
  | cons c cs ih =>
    simp only [includes, Bool.or_eq_true, List.isPrefixOf_iff_prefix, ih]
    exact List.infix_cons_iff.symm

/-- A further character of the class next to one of the class changes nothing. -/
theorem collapseRuns_dup (cls : Char → Bool) (r : Char) (b : Bool) (x y : Str) (c d : Char)
    (hc : cls c = true) (hd : cls d = true) :
    collapseRuns cls r b (x ++ c :: d :: y) = collapseRuns cls r b (x ++ c :: y) := by
  rw [collapseRuns_append, collapseRuns_append]
  congr 1
  cases endFlag cls b x <;> simp [collapseRuns, hc, hd]

/-- Which character of the class stands at a place changes nothing. -/
theorem collapseRuns_swap (cls : Char → Bool) (r : Char) (b : Bool) (x y : Str) (c d : Char)
    (hc : cls c = true) (hd : cls d = true) :
    collapseRuns cls r b (x ++ c :: y) = collapseRuns cls r b (x ++ d :: y) := by
  rw [collapseRuns_append, collapseRuns_append]
  congr 1
  cases endFlag cls b x <;> simp [collapseRuns, hc, hd]

/-- A character outside the class ends the runs on both of its sides. -/
theorem collapseRuns_split (cls : Char → Bool) (r : Char) (b : Bool) (x y : Str) (c : Char)
    (hc : cls c = false) :
    collapseRuns cls r b (x ++ c :: y) =
      collapseRuns cls r b x ++ c :: collapseRuns cls r false y := by
  rw [collapseRuns_append]
  congr 1
  simp [collapseRuns, hc]

theorem toLower_of_isHSpace (c : Char) (h : isHSpace c = true) : c.toLower = c := by
  simp only [isHSpace, Bool.or_eq_true, beq_iff_eq] at h
  rcases h with h | h <;> subst h <;> decide

theorem ne_cr_of_isHSpace (c : Char) (h : isHSpace c = true) : (c != '\r') = true := by
  simp only [isHSpace, Bool.or_eq_true, beq_iff_eq] at h
  rcases h with h | h <;> subst h <;> decide

/-- A variant of a phrase has, before trimming, the normal form of the phrase. -/
theorem Variant.squeeze_eq {p q : Str} (h : Variant p q) :
    collapseNewlines (collapseHSpace (removeCR (toLowerCase q))) =
      collapseNewlines (collapseHSpace (removeCR (toLowerCase p))) := by
  induction h with
  | same => rfl
  | letterCase u v c d hcd _ ih =>
    rw [← ih]
    simp [toLowerCase, hcd]
  | blankAfter u v c d hc hd _ ih =>
    rw [← ih]
    have e1 : removeCR (toLowerCase (u ++ c :: d :: v)) =
        removeCR (toLowerCase u) ++ c :: d :: removeCR (toLowerCase v) := by
      simp [removeCR, toLowerCase, toLower_of_isHSpace, hc, hd, ne_cr_of_isHSpace]
    have e2 : removeCR (toLowerCase (u ++ c :: v)) =
        removeCR (toLowerCase u) ++ c :: removeCR (toLowerCase v) := by
      simp [removeCR, toLowerCase, toLower_of_isHSpace, hc, ne_cr_of_isHSpace]
    rw [e1, e2]
    unfold collapseHSpace
    rw [collapseRuns_dup isHSpace ' ' false _ _ c d hc hd]
  | blankBefore u v c d hc hd _ ih =>
    rw [← ih]
    have e1 : removeCR (toLowerCase (u ++ d :: c :: v)) =
        removeCR (toLowerCase u) ++ d :: c :: removeCR (toLowerCase v) := by
      simp [removeCR, toLowerCase, toLower_of_isHSpace, hc, hd, ne_cr_of_isHSpace]
    have e2 : removeCR (toLowerCase (u ++ c :: v)) =
        removeCR (toLowerCase u) ++ c :: removeCR (toLowerCase v) := by
      simp [removeCR, toLowerCase, toLower_of_isHSpace, hc, ne_cr_of_isHSpace]
    rw [e1, e2]
    unfold collapseHSpace
    rw [collapseRuns_dup isHSpace ' ' false _ _ d c hd hc,
      collapseRuns_swap isHSpace ' ' false _ _ d c hd hc]
  | blankLine u v _ ih =>
    rw [← ih]
    have e1 : removeCR (toLowerCase (u ++ '\n' :: '\n' :: v)) =
        removeCR (toLowerCase u) ++ '\n' :: ([] ++ '\n' :: removeCR (toLowerCase v)) := by
      simp [removeCR, toLowerCase]
    have e2 : removeCR (toLowerCase (u ++ '\n' :: v)) =
        removeCR (toLowerCase u) ++ '\n' :: removeCR (toLowerCase v) := by
      simp [removeCR, toLowerCase]
    have hn : isHSpace '\n' = false := by decide
    rw [e1, e2]
    unfold collapseHSpace collapseNewlines
    rw [collapseRuns_split isHSpace ' ' false _ _ '\n' hn,
      collapseRuns_split isHSpace ' ' false _ _ '\n' hn,
      collapseRuns_split isHSpace ' ' false _ _ '\n' hn]
    simp only [collapseRuns, List.nil_append]
    exact collapseRuns_dup isNewline '\n' false _ _ '\n' '\n' (by decide) (by decide)

/-- Dropping leading white space of `l ++ x` leaves `x` without its leading white space,
behind what is left of `l`. -/
theorem dropWhile_append_exists (pr : Char → Bool) (l x : Str) :
    ∃ l2, (l ++ x).dropWhile pr = l2 ++ x.dropWhile pr := by
  induction l with
  | nil => exact ⟨[], rfl⟩
  | cons c cs ih =>
    by_cases hc : pr c = true
    · obtain ⟨l2, hl2⟩ := ih
      exact ⟨l2, by simp [List.dropWhile_cons, hc, hl2]⟩
    · refine ⟨c :: cs ++ x.takeWhile pr, ?_⟩
      simp [List.dropWhile_cons, hc]

theorem rdropWhile_append_exists (pr : Char → Bool) (x r : Str) :
    ∃ r2, (x ++ r).rdropWhile pr = x.rdropWhile pr ++ r2 := by
  obtain ⟨l2, hl2⟩ := dropWhile_append_exists pr r.reverse x.reverse
  refine ⟨l2.reverse, ?_⟩
  simp only [List.rdropWhile, List.reverse_append, hl2, List.reverse_reverse]

theorem dropWhile_append_of_ne_nil (pr : Char → Bool) (x r : Str) (h : x.dropWhile pr ≠ []) :
    (x ++ r).dropWhile pr = x.dropWhile pr ++ r := by
  rw [List.dropWhile_append]
  cases hx : x.dropWhile pr with
  | nil => exact absurd hx h
  | cons a as => simp

theorem rdropWhile_append_of_ne_nil (pr : Char → Bool) (l x : Str) (h : x.rdropWhile pr ≠ []) :
    (l ++ x).rdropWhile pr = l ++ x.rdropWhile pr := by
  have h2 : x.reverse.dropWhile pr ≠ [] := by
    intro h0
    apply h
    simp [List.rdropWhile, h0]
  simp only [List.rdropWhile, List.reverse_append,
    dropWhile_append_of_ne_nil pr x.reverse l.reverse h2, List.reverse_reverse]

/-- What trimming keeps of a string is kept when the string stands inside a longer one. -/
theorem trim_infix (a x b : Str) : trim x <:+: trim (a ++ x ++ b) := by
  by_cases hx : trim x = []
  · rw [hx]; exact List.nil_infix
  · have hd : x.dropWhile isJsSpace ≠ [] := by
      intro h0
      apply hx
      simp [trim, h0]
    obtain ⟨l2, hl2⟩ := dropWhile_append_exists isJsSpace a (x ++ b)
    rw [dropWhile_append_of_ne_nil isJsSpace x b hd] at hl2
    obtain ⟨r2, hr2⟩ := rdropWhile_append_exists isJsSpace (l2 ++ x.dropWhile isJsSpace) b
    rw [rdropWhile_append_of_ne_nil isJsSpace l2 _ hx] at hr2
    have e : trim (a ++ x ++ b) = l2 ++ trim x ++ r2 := by
      have e0 : trim (a ++ x ++ b) =
          ((a ++ (x ++ b)).dropWhile isJsSpace).rdropWhile isJsSpace := by
        simp [trim]
      rw [e0, hl2, ← List.append_assoc, hr2]
      rfl
    rw [e]
    exact List.infix_append _ _ _

/-- Leading white space does not survive trimming. -/
theorem trim_append_of_space (w x : Str) (hw : ∀ c ∈ w, isJsSpace c = true) :
    trim (w ++ x) = trim x := by
  unfold trim
  rw [List.dropWhile_append_of_pos hw]

/-- Inside a longer string, a string is collapsed as on its own, up to the replacement of a
leading run. -/
theorem collapseRuns_inside (cls : Char → Bool) (r : Char) (b : Bool) (a x c : Str) :
    ∃ f g, collapseRuns cls r b (a ++ x ++ c) =
      collapseRuns cls r b a ++ collapseRuns cls r f x ++ collapseRuns cls r g c := by
  refine ⟨endFlag cls b a, endFlag cls b (a ++ x), ?_⟩
  rw [collapseRuns_append, collapseRuns_append]

/-- Before trimming, what the steps after the lower-casing make of a string that stands inside
a text stands inside what they make of the text, up to leading white space. -/
theorem squeeze_inside (a q b : Str) :
    ∃ A Q B w, (∀ c ∈ w, isJsSpace c = true) ∧
      collapseNewlines (collapseHSpace (removeCR (a ++ q ++ b))) = A ++ Q ++ B ∧
      collapseNewlines (collapseHSpace (removeCR q)) = w ++ Q := by
  have e0 : removeCR (a ++ q ++ b) = removeCR a ++ removeCR q ++ removeCR b := by
    simp [removeCR]
  obtain ⟨f1, f2, e1⟩ := collapseRuns_inside isHSpace ' ' false (removeCR a)
    (removeCR q) (removeCR b)
  obtain ⟨g1, g2, e2⟩ := collapseRuns_inside isNewline '\n' false
    (collapseRuns isHSpace ' ' false (removeCR a))
    (collapseRuns isHSpace ' ' f1 (removeCR q))
    (collapseRuns isHSpace ' ' f2 (removeCR b))
  obtain ⟨w1, hw1, e3⟩ := collapseRuns_flag isHSpace ' ' f1 (removeCR q)
  obtain ⟨w2, hw2, e4⟩ := collapseRuns_flag isNewline '\n' g1
    (collapseRuns isHSpace ' ' f1 (removeCR q))
  refine ⟨collapseRuns isNewline '\n' false (collapseRuns isHSpace ' ' false (removeCR a)),
    collapseRuns isNewline '\n' g1 (collapseRuns isHSpace ' ' f1 (removeCR q)),
    collapseRuns isNewline '\n' g2 (collapseRuns isHSpace ' ' f2 (removeCR b)),
    w1 ++ w2, ?_, ?_, ?_⟩
  · intro c hc
    rcases List.mem_append.1 hc with h | h
    · rcases hw1 with h1 | h1 <;> rw [h1] at h
      · simp at h
      · rw [List.mem_singleton.1 h]; decide
    · rcases hw2 with h2 | h2 <;> rw [h2] at h
      · simp at h
      · rw [List.mem_singleton.1 h]; decide
  · unfold collapseNewlines collapseHSpace
    rw [e0, e1, e2]
  · unfold collapseNewlines collapseHSpace
    rw [e3, collapseRuns_append, List.append_assoc]
    have hflag : endFlag isNewline false w1 = false := by
      rcases hw1 with h1 | h1 <;> rw [h1] <;> rfl
    have hw1' : collapseRuns isNewline '\n' false w1 = w1 := by
      rcases hw1 with h1 | h1 <;> rw [h1] <;> rfl
    rw [hflag, hw1', e4]

/-- The normal form of an ASCII string that stands inside a text stands inside the normal form
of the text. -/
theorem normWith_infix (lower : Str → Str) (hl : LowerCasing lower) (a q b : Str)
    (hq : isAscii q) : normWith lower q <:+: normWith lower (a ++ q ++ b) := by
  obtain ⟨a2, b2, e0⟩ := hl.ascii_inside a q b hq
  obtain ⟨A, Q, B, w, hw, e1, e2⟩ := squeeze_inside a2 (q.map Char.toLower) b2
  unfold normWith
  rw [e0, hl.ascii q hq, e1, e2, trim_append_of_space w Q hw]
  exact trim_infix A Q B

/-- A pattern of the list whose normal form stands in the normal form of the text is found. -/
theorem matchAnyWith_of_infix (lower : Str → Str) (t : Str) (L : List Str) (p : Str)
    (hp : p ∈ L) (h : normWith lower p <:+: normWith lower t) :
    matchAnyWith lower t L = true := by
  simp only [matchAnyWith, List.any_eq_true]
  exact ⟨p, hp, (includes_iff _ _).2 h⟩

/-- Lower-casing keeps an ASCII character ASCII, and only an ASCII character becomes one. -/
theorem toLower_lt_iff (c : Char) : c.toLower.toNat < 128 ↔ c.toNat < 128 := by
  by_cases h : c.toNat ≥ 65 ∧ c.toNat ≤ 90
  · have h1 : c.toLower = Char.ofNat (c.toNat + 32) := by
      simp only [Char.toLower, h, and_self, if_true]
    rw [h1, toNat_ofNat_small _ (by omega)]
    omega
  · have h1 : c.toLower = c := by
      simp only [Char.toLower, h, if_false]
    rw [h1]

/-- A variant of an ASCII phrase is ASCII. -/
theorem Variant.isAscii {p q : Str} (h : Variant p q) (hp : isAscii p) : isAscii q := by
  have hsp : ∀ d : Char, isHSpace d = true → d.toNat < 128 := by
    intro d hd
    simp only [isHSpace, Bool.or_eq_true, beq_iff_eq] at hd
    rcases hd with hd | hd <;> subst hd <;> decide
  induction h with
  | same => exact hp
  | letterCase u v c d hcd _ ih =>
    intro x hx
    rcases List.mem_append.1 hx with hx | hx
    · exact ih x (List.mem_append_left _ hx)
    · rcases List.mem_cons.1 hx with hx | hx
      · subst hx
        have hc : c.toNat < 128 := ih c (by simp)
        rw [← toLower_lt_iff, ← hcd, toLower_lt_iff]
        exact hc
      · exact ih x (by simp [hx])
  | blankAfter u v c d _ hd _ ih =>
    intro x hx
    rcases List.mem_append.1 hx with hx | hx
    · exact ih x (List.mem_append_left _ hx)
    · rcases List.mem_cons.1 hx with hx | hx
      · exact ih x (by simp [hx])
      · rcases List.mem_cons.1 hx with hx | hx
        · subst hx; exact hsp _ hd
        · exact ih x (by simp [hx])
  | blankBefore u v c d _ hd _ ih =>
    intro x hx
    rcases List.mem_append.1 hx with hx | hx
    · exact ih x (List.mem_append_left _ hx)
    · rcases List.mem_cons.1 hx with hx | hx
      · subst hx; exact hsp _ hd
      · exact ih x (List.mem_append_right _ hx)
  | blankLine u v _ ih =>
    intro x hx
    rcases List.mem_append.1 hx with hx | hx
    · exact ih x (List.mem_append_left _ hx)
    · rcases List.mem_cons.1 hx with hx | hx
      · subst hx; decide
      · exact ih x (List.mem_append_right _ hx)

/-! ## Lemmas on the handler -/

theorem outbound_append (xs ys : List Effect) :
    outbound (xs ++ ys) = outbound xs ++ outbound ys := by
  induction xs with
  | nil => rfl
  | cons x xs ih => cases x <;> simp [outbound, ih]

theorem logged_append (xs ys : List Effect) :
    logged (xs ++ ys) = logged xs ++ logged ys := by
  induction xs with
  | nil => rfl
  | cons x xs ih => cases x <;> simp [logged, ih]

/-- The handler always ends normally: what the `try` block throws, the `catch` block absorbs. -/
theorem handler_normal (cfg : Config) (w : World) (msg : Msg) :
    (handler cfg w msg).2 = Completion.normal := by
  unfold handler
  split <;> rfl

/-- The calls the handler issues are those of its `try` block. -/
theorem outbound_handler_eq (cfg : Config) (w : World) (msg : Msg) :
    outbound (handler cfg w msg).1 = outbound (tryBlock cfg w msg).1 := by
  unfold handler
  split
  · next h => simp [h]
  · next h => simp [h, outbound_append, outbound]

/-- For a message of the counterpart, the handler issues the calls of the first phase whose
phrase list accepts the body, and none when there is no such phase. -/
theorem outbound_handler (cfg : Config) (w : World) (msg : Msg)
    (hfrom : msg.sender = chatIdOf cfg) :
    outbound (handler cfg w msg).1 =
      match firstPhase (msg.body.getD []) with
      | some ph => phaseAction cfg w.existsSync msg.sender ph
      | none => [] := by
  rw [outbound_handler_eq]
  simp only [tryBlock, hfrom, ne_eq, not_true_eq_false, if_false, firstPhase, List.find?]
  cases h1 : matchAny (msg.body.getD []) (TRIGGERS Phase.askCode)
  · cases h2 : matchAny (msg.body.getD []) (TRIGGERS Phase.askImg1)
    · cases h3 : matchAny (msg.body.getD []) (TRIGGERS Phase.askImg2)
      · cases h4 : matchAny (msg.body.getD []) (TRIGGERS Phase.doneMsg)
        · simp [outbound]
        · simp only [if_true, phaseAction, outbound]
          unfold awaitThen; split <;> simp [outbound]
      · simp only [if_true, phaseAction]
        cases h : w.existsSync cfg.img2 <;>
          simp only [if_true, outbound] <;> unfold awaitThen <;> split <;> simp [outbound, hfrom]
    · simp only [if_true, phaseAction]
      cases h : w.existsSync cfg.img1 <;>
        simp only [if_true, outbound] <;> unfold awaitThen <;> split <;> simp [outbound, hfrom]
  · simp only [if_true, phaseAction, outbound]
    unfold awaitThen; split <;> simp [outbound]

/-- The first phase is the phase that matches and before which no phase matches. -/
theorem firstPhase_eq_some_iff (body : Str) (ph : Phase) :
    firstPhase body = some ph ↔
      matchAny body (TRIGGERS ph) = true ∧
        ∀ q : Phase, q.rank < ph.rank → matchAny body (TRIGGERS q) = false := by
  constructor
  · intro h
    simp only [firstPhase, List.find?] at h
    cases h1 : matchAny body (TRIGGERS Phase.askCode) <;>
    cases h2 : matchAny body (TRIGGERS Phase.askImg1) <;>
    cases h3 : matchAny body (TRIGGERS Phase.askImg2) <;>
    cases h4 : matchAny body (TRIGGERS Phase.doneMsg) <;>
    simp only [h1, h2, h3, h4] at h <;>
    cases h <;>
    (refine ⟨by assumption, ?_⟩
     intro q hq
     cases q <;> simp_all [Phase.rank])
  · rintro ⟨hm, hlt⟩
    cases ph
    · simp [firstPhase, List.find?, hm]
    · have h1 := hlt Phase.askCode (by simp [Phase.rank])
      simp [firstPhase, List.find?, hm, h1]
    · have h1 := hlt Phase.askCode (by simp [Phase.rank])
      have h2 := hlt Phase.askImg1 (by simp [Phase.rank])
      simp [firstPhase, List.find?, hm, h1, h2]
    · have h1 := hlt Phase.askCode (by simp [Phase.rank])
      have h2 := hlt Phase.askImg1 (by simp [Phase.rank])
      have h3 := hlt Phase.askImg2 (by simp [Phase.rank])
      simp [firstPhase, List.find?, hm, h1, h2, h3]

/-- No phase is selected exactly when no phrase list accepts the body. -/
theorem firstPhase_eq_none_iff (body : Str) :
    firstPhase body = none ↔ ∀ q : Phase, matchAny body (TRIGGERS q) = false := by
  constructor
  · intro h q
    simp only [firstPhase, List.find?_eq_none] at h
    have := h q (by cases q <;> simp)
    simpa using this
  · intro h
    simp [firstPhase, List.find?, h]

/-- Every response of a phase is a single call. -/
theorem phaseAction_length (cfg : Config) (ex : Str → Bool) (sender : Str) (ph : Phase) :
    (phaseAction cfg ex sender ph).length = 1 := by
  cases ph <;> simp only [phaseAction] <;> try rfl
  all_goals split <;> rfl

/-! ## The dispatch of one message -/

/-- C1.  For a message of the counterpart and no failing call, the handler issues exactly the
calls of the first phase, in the order `askCode`, `askImg1`, `askImg2`, `doneMsg`, whose phrase
list `matchAny` accepts: the code as a text reply; the picture sent to the sender when its path
exists and else the apology as a text reply; the reaction with the check mark and no text; and
no call when no phase matches.  The number of calls is one when a phase matches, else zero. -/
theorem handler_first_matching_phase (cfg : Config) (ex : Str → Bool) (msg : Msg)
    (hfrom : msg.sender = chatIdOf cfg) :
    (firstPhase (msg.body.getD []) = some Phase.askCode →
      outbound (handler cfg (noFailure ex) msg).1 = [Outbound.reply cfg.code]) ∧
    (firstPhase (msg.body.getD []) = some Phase.askImg1 →
      outbound (handler cfg (noFailure ex) msg).1 =
        if ex cfg.img1 then [Outbound.sendMedia msg.sender cfg.img1]
        else [Outbound.reply apology1]) ∧
    (firstPhase (msg.body.getD []) = some Phase.askImg2 →
      outbound (handler cfg (noFailure ex) msg).1 =
        if ex cfg.img2 then [Outbound.sendMedia msg.sender cfg.img2]
        else [Outbound.reply apology2]) ∧
    (firstPhase (msg.body.getD []) = some Phase.doneMsg →
      outbound (handler cfg (noFailure ex) msg).1 = [Outbound.react checkMark]) ∧
    (firstPhase (msg.body.getD []) = none →
      outbound (handler cfg (noFailure ex) msg).1 = []) ∧
    (outbound (handler cfg (noFailure ex) msg).1).length =
      if (firstPhase (msg.body.getD [])).isSome then 1 else 0 := by
  have key := outbound_handler cfg (noFailure ex) msg hfrom
  refine ⟨?_, ?_, ?_, ?_, ?_, ?_⟩
  · intro h; rw [key, h]; rfl
  · intro h; rw [key, h]; rfl
  · intro h; rw [key, h]; rfl
  · intro h; rw [key, h]; rfl
  · intro h; rw [key, h]
  · rw [key]
    cases h : firstPhase (msg.body.getD []) with
    | none => rfl
    | some ph => simpa using phaseAction_length cfg ex msg.sender ph

/-- Scenarios 1 and 3 of the specification: the request for the code is answered by the code,
the closing message by the reaction alone. -/
theorem handler_first_matching_phase_witness :
    outbound (handler sampleCfg (noFailure noFiles) (fromTarget askCodeText)).1 =
        [Outbound.reply "F123ABCDE".toList] ∧
      outbound (handler sampleCfg (noFailure noFiles) (fromTarget doneText)).1 =
        [Outbound.react "✅".toList] :=
  ⟨(handler_first_matching_phase sampleCfg noFiles (fromTarget askCodeText) (by decide)).1
      (by decide),
   (handler_first_matching_phase sampleCfg noFiles (fromTarget doneText) (by decide)).2.2.2.1
      (by decide)⟩

/-- C2.  Priority: when the body of a message of the counterpart matches the phrase lists of
two phases, the handler issues the single call of the earliest matching phase, whatever later
phases match as well and whether or not the call fails. -/
theorem handler_priority (cfg : Config) (w : World) (msg : Msg) (ph later : Phase)
    (hfrom : msg.sender = chatIdOf cfg)
    (hph : matchAny (msg.body.getD []) (TRIGGERS ph) = true)
    (hearliest : ∀ q : Phase, q.rank < ph.rank → matchAny (msg.body.getD []) (TRIGGERS q) = false)
    (hlater : matchAny (msg.body.getD []) (TRIGGERS later) = true)
    (horder : ph.rank < later.rank) :
    outbound (handler cfg w msg).1 = phaseAction cfg w.existsSync msg.sender ph ∧
      (outbound (handler cfg w msg).1).length = 1 ∧
      firstPhase (msg.body.getD []) ≠ some later := by
  have hfirst : firstPhase (msg.body.getD []) = some ph :=
    (firstPhase_eq_some_iff _ _).2 ⟨hph, hearliest⟩
  have key := outbound_handler cfg w msg hfrom
  rw [hfirst] at key
  refine ⟨key, by rw [key]; exact phaseAction_length _ _ _ _, ?_⟩
  intro h
  have hlater0 := ((firstPhase_eq_some_iff _ _).1 h).2 ph horder
  rw [hph] at hlater0
  have _ := hlater
  exact absurd hlater0 (by simp)

/-- A body with a phrase of `askCode` and a phrase of `askImg1`, the picture being on disk:
the code is replied and no picture is sent. -/
theorem handler_priority_witness :
    matchAny twoPhaseText.toList (TRIGGERS Phase.askCode) = true ∧
      matchAny twoPhaseText.toList (TRIGGERS Phase.askImg1) = true ∧
      outbound (handler sampleCfg (noFailure allFiles) (fromTarget twoPhaseText)).1 =
        [Outbound.reply "F123ABCDE".toList] :=
  ⟨by decide, by decide,
   (handler_priority sampleCfg (noFailure allFiles) (fromTarget twoPhaseText)
      Phase.askCode Phase.askImg1 (by decide) (by decide)
      (by intro q hq; cases q <;> simp [Phase.rank] at hq) (by decide) (by decide)).1⟩

/-- C3.  Counterpart filter: for a message whose sender is not `cfg.target` followed by
`@c.us`, whatever its body, the handler issues no call and prints no line. -/
theorem handler_ignores_others (cfg : Config) (w : World) (msg : Msg)
    (hfrom : msg.sender ≠ chatIdOf cfg) :
    (handler cfg w msg).1 = [] ∧ outbound (handler cfg w msg).1 = [] ∧
      logged (handler cfg w msg).1 = [] := by
  have h : handler cfg w msg = ([], Completion.normal) := by
    simp [handler, tryBlock, hfrom]
  simp [h, outbound, logged]

/-- Scenario 4: the request for the code, sent by somebody else, is not acted on. -/
theorem handler_ignores_others_witness :
    matchAny askCodeText.toList (TRIGGERS Phase.askCode) = true ∧
      (handler sampleCfg (noFailure allFiles) (fromStranger askCodeText)).1 = [] :=
  ⟨by decide,
   (handler_ignores_others sampleCfg (noFailure allFiles) (fromStranger askCodeText)
      (by decide)).1⟩

/-- The trace of the handler is the trace of its `try` block, followed by the line of the
`catch` block when the `try` block threw. -/
theorem handler_trace (cfg : Config) (w : World) (msg : Msg) :
    ∃ extra, (handler cfg w msg).1 = (tryBlock cfg w msg).1 ++ extra := by
  unfold handler
  split
  · next h => exact ⟨[], by simp [h]⟩
  · next h => exact ⟨[Effect.log Entry.handlerError], by simp [h]⟩

/-- The `try` block when the first picture is asked for and is not on disk. -/
theorem tryBlock_missing1 (cfg : Config) (w : World) (msg : Msg)
    (hfrom : msg.sender = chatIdOf cfg)
    (h0 : matchAny (msg.body.getD []) (TRIGGERS Phase.askCode) = false)
    (h1 : matchAny (msg.body.getD []) (TRIGGERS Phase.askImg1) = true)
    (hmiss : w.existsSync cfg.img1 = false) :
    (tryBlock cfg w msg).1 =
      Effect.log (Entry.echo cfg.target (msg.body.getD [])) ::
        Effect.log (Entry.missingImg1 cfg.img1) ::
          (awaitThen w (Outbound.reply apology1) []).1 := by
  simp [tryBlock, hfrom, h0, h1, hmiss]

/-- The `try` block when the second picture is asked for and is not on disk. -/
theorem tryBlock_missing2 (cfg : Config) (w : World) (msg : Msg)
    (hfrom : msg.sender = chatIdOf cfg)
    (h0 : matchAny (msg.body.getD []) (TRIGGERS Phase.askCode) = false)
    (h1 : matchAny (msg.body.getD []) (TRIGGERS Phase.askImg1) = false)
    (h2 : matchAny (msg.body.getD []) (TRIGGERS Phase.askImg2) = true)
    (hmiss : w.existsSync cfg.img2 = false) :
    (tryBlock cfg w msg).1 =
      Effect.log (Entry.echo cfg.target (msg.body.getD [])) ::
        Effect.log (Entry.missingImg2 cfg.img2) ::
          (awaitThen w (Outbound.reply apology2) []).1 := by
  simp [tryBlock, hfrom, h0, h1, h2, hmiss]

/-- C4.  Missing media: when a message of the counterpart selects `askImg1` (resp. `askImg2`)
and `cfg.img1` (resp. `cfg.img2`) is not on disk, the handler prints the warning, issues the
apology as its one call, sends no media, and ends normally, also when the reply fails. -/
theorem handler_missing_media (cfg : Config) (w : World) (msg : Msg)
    (hfrom : msg.sender = chatIdOf cfg) :
    (firstPhase (msg.body.getD []) = some Phase.askImg1 → w.existsSync cfg.img1 = false →
      outbound (handler cfg w msg).1 = [Outbound.reply apology1] ∧
      Entry.missingImg1 cfg.img1 ∈ logged (handler cfg w msg).1 ∧
      (∀ chat path, Outbound.sendMedia chat path ∉ outbound (handler cfg w msg).1) ∧
      (handler cfg w msg).2 = Completion.normal) ∧
    (firstPhase (msg.body.getD []) = some Phase.askImg2 → w.existsSync cfg.img2 = false →
      outbound (handler cfg w msg).1 = [Outbound.reply apology2] ∧
      Entry.missingImg2 cfg.img2 ∈ logged (handler cfg w msg).1 ∧
      (∀ chat path, Outbound.sendMedia chat path ∉ outbound (handler cfg w msg).1) ∧
      (handler cfg w msg).2 = Completion.normal) := by
  have key := outbound_handler cfg w msg hfrom
  obtain ⟨extra, hextra⟩ := handler_trace cfg w msg
  constructor
  · intro hsel hmiss
    rw [hsel] at key
    simp only [phaseAction, hmiss] at key
    have hm := (firstPhase_eq_some_iff _ _).1 hsel
    have h0 : matchAny (msg.body.getD []) (TRIGGERS Phase.askCode) = false :=
      hm.2 Phase.askCode (by simp [Phase.rank])
    refine ⟨by simpa using key, ?_, ?_, handler_normal cfg w msg⟩
    · rw [hextra, tryBlock_missing1 cfg w msg hfrom h0 hm.1 hmiss]
      simp [logged]
    · intro chat path
      rw [key]
      simp
  · intro hsel hmiss
    rw [hsel] at key
    simp only [phaseAction, hmiss] at key
    have hm := (firstPhase_eq_some_iff _ _).1 hsel
    have h0 : matchAny (msg.body.getD []) (TRIGGERS Phase.askCode) = false :=
      hm.2 Phase.askCode (by simp [Phase.rank])
    have h1 : matchAny (msg.body.getD []) (TRIGGERS Phase.askImg1) = false :=
      hm.2 Phase.askImg1 (by simp [Phase.rank])
    refine ⟨by simpa using key, ?_, ?_, handler_normal cfg w msg⟩
    · rw [hextra, tryBlock_missing2 cfg w msg hfrom h0 h1 hm.1 hmiss]
      simp [logged]
    · intro chat path
      rw [key]
      simp

/-- Scenario 2: the first picture is asked for and is not on disk; the whole trace of the
handler is the echo, the warning and the apology. -/
theorem handler_missing_media_witness :
    (outbound (handler sampleCfg (noFailure noFiles) (fromTarget askImg1Text)).1 =
        [Outbound.reply "Maaf, file gambar1 tidak ditemukan di server.".toList] ∧
      Entry.missingImg1 sampleCfg.img1 ∈
        logged (handler sampleCfg (noFailure noFiles) (fromTarget askImg1Text)).1 ∧
      (∀ chat path, Outbound.sendMedia chat path ∉
        outbound (handler sampleCfg (noFailure noFiles) (fromTarget askImg1Text)).1) ∧
      (handler sampleCfg (noFailure noFiles) (fromTarget askImg1Text)).2 = Completion.normal) :=
  (handler_missing_media sampleCfg (noFailure noFiles) (fromTarget askImg1Text) (by decide)).1
    (by decide) (by decide)

/-- C7.  Any-of on the catalog: a message of the counterpart whose body is one phrase of a
phase alone is accepted by the list of that phase and by no other list, selects that phase, and
makes the handler issue the call of that phase. -/
theorem handler_single_phrase (cfg : Config) (w : World) (ph : Phase) (p : Str)
    (hp : p ∈ TRIGGERS ph) :
    matchAny p (TRIGGERS ph) = true ∧
      (∀ q : Phase, q ≠ ph → matchAny p (TRIGGERS q) = false) ∧
      firstPhase p = some ph ∧
      outbound (handler cfg w { sender := chatIdOf cfg, body := some p }).1 =
        phaseAction cfg w.existsSync (chatIdOf cfg) ph := by
  have hcat : matchAny p (TRIGGERS ph) = true ∧
      (∀ q : Phase, q ≠ ph → matchAny p (TRIGGERS q) = false) ∧ firstPhase p = some ph := by
    cases ph <;> simp only [TRIGGERS, List.mem_cons, List.mem_singleton, List.not_mem_nil,
      or_false] at hp <;> rcases hp with rfl | rfl <;>
    refine ⟨by decide, ?_, by decide⟩ <;>
    intro q hq <;> cases q <;> first | exact absurd rfl hq | decide
  refine ⟨hcat.1, hcat.2.1, hcat.2.2, ?_⟩
  have key := outbound_handler cfg w { sender := chatIdOf cfg, body := some p } rfl
  simp only [Option.getD_some, hcat.2.2] at key
  exact key

/-- The second phrase of `askImg2` alone, the second picture being on disk: the picture is
sent. -/
theorem handler_single_phrase_witness :
    outbound (handler sampleCfg (noFailure allFiles)
        { sender := chatIdOf sampleCfg
          body := some "pastikan foto ktp kamu terbaca dengan jelas".toList }).1 =
      [Outbound.sendMedia (chatIdOf sampleCfg) sampleCfg.img2] :=
  (handler_single_phrase sampleCfg (noFailure allFiles) Phase.askImg2
    "pastikan foto ktp kamu terbaca dengan jelas".toList (by decide)).2.2.2

/-! ## Failures and sessions -/

theorem runSession_append (cfg : Config) (xs ys : List Event) :
    runSession cfg (xs ++ ys) = runSession cfg xs ++ runSession cfg ys := by
  induction xs with
  | nil => rfl
  | cons x xs ih => simp [runSession, ih]

/-- The calls the handler issues do not depend on which calls fail. -/
theorem outbound_handler_calm (cfg : Config) (w : World) (msg : Msg) :
    outbound (handler cfg w msg).1 = outbound (handler cfg (noFailure w.existsSync) msg).1 := by
  by_cases hfrom : msg.sender = chatIdOf cfg
  · rw [outbound_handler cfg w msg hfrom, outbound_handler cfg _ msg hfrom]
    rfl
  · have h1 : handler cfg w msg = ([], Completion.normal) := by
      simp [handler, tryBlock, hfrom]
    have h2 : handler cfg (noFailure w.existsSync) msg = ([], Completion.normal) := by
      simp [handler, tryBlock, hfrom]
    rw [h1, h2]

/-- C8.  Failure semantics: whichever awaited calls reject, the handler ends normally, the
`catch` block having printed the error; the calls it issues for a message are those it issues
when nothing fails; and over a session the calls issued are those of the same session without
failures, so that a failure changes nothing for the messages after it. -/
theorem handler_failure_semantics (cfg : Config) (w : World) (msg : Msg) (evs : List Event) :
    (handler cfg w msg).2 = Completion.normal ∧
      ((tryBlock cfg w msg).2 = Completion.thrown →
        Entry.handlerError ∈ logged (handler cfg w msg).1) ∧
      outbound (handler cfg w msg).1 = outbound (handler cfg (noFailure w.existsSync) msg).1 ∧
      outbound (runSession cfg evs) = outbound (runSession cfg (evs.map calm)) := by
  refine ⟨handler_normal cfg w msg, ?_, outbound_handler_calm cfg w msg, ?_⟩
  · intro hthrown
    unfold handler
    split
    · next h => rw [h] at hthrown; cases hthrown
    · simp [logged_append, logged]
  · induction evs with
    | nil => rfl
    | cons e es ih =>
      simp only [runSession, List.map_cons, outbound_append, ih]
      rw [outbound_handler_calm cfg e.world e.msg]
      rfl

/-- The reply of the code rejects: the error is printed, the handler ends normally, and the
next message is answered as if nothing had happened. -/
theorem handler_failure_semantics_witness :
    (tryBlock sampleCfg (allFail noFiles) (fromTarget askCodeText)).2 = Completion.thrown ∧
      (handler sampleCfg (allFail noFiles) (fromTarget askCodeText)).2 = Completion.normal ∧
      Entry.handlerError ∈
        logged (handler sampleCfg (allFail noFiles) (fromTarget askCodeText)).1 ∧
      outbound (runSession sampleCfg
          [{ msg := fromTarget askCodeText, world := allFail noFiles }, askCodeEvent]) =
        outbound (runSession sampleCfg
          ([{ msg := fromTarget askCodeText, world := allFail noFiles }, askCodeEvent].map
            calm)) :=
  ⟨by decide,
   (handler_failure_semantics sampleCfg (allFail noFiles) (fromTarget askCodeText) []).1,
   (handler_failure_semantics sampleCfg (allFail noFiles) (fromTarget askCodeText) []).2.1
     (by decide),
   (handler_failure_semantics sampleCfg (allFail noFiles) (fromTarget askCodeText)
     [{ msg := fromTarget askCodeText, world := allFail noFiles }, askCodeEvent]).2.2.2⟩

/-- C9, as stated, fails: the request for the code selects `askCode`; sent once it is answered
by one reply, sent twice by two, the second request being answered like the first. -/
theorem respond_once_counterexample :
    firstPhase askCodeText.toList = some Phase.askCode ∧
      outbound (runSession sampleCfg [askCodeEvent]) = [Outbound.reply "F123ABCDE".toList] ∧
      outbound (runSession sampleCfg [askCodeEvent, askCodeEvent]) =
        [Outbound.reply "F123ABCDE".toList, Outbound.reply "F123ABCDE".toList] := by
  refine ⟨by decide, by decide, by decide⟩

/-- C9, amended.  The dispatcher keeps no memory of the phases it has answered: after any
sequence of messages, a message of the counterpart that selects a phase is answered by the call
of that phase, whether or not an earlier message was answered in the same way. -/
theorem session_answers_every_time (cfg : Config) (hist : List Event) (e : Event) (ph : Phase)
    (hfrom : e.msg.sender = chatIdOf cfg)
    (hph : firstPhase (e.msg.body.getD []) = some ph) :
    outbound (runSession cfg (hist ++ [e])) =
      outbound (runSession cfg hist) ++ phaseAction cfg e.world.existsSync e.msg.sender ph := by
  have key := outbound_handler cfg e.world e.msg hfrom
  rw [hph] at key
  simp only [runSession_append, outbound_append, runSession, List.append_nil, key]

/-- After the request for the code has been answered, the same request is answered again. -/
theorem session_answers_every_time_witness :
    outbound (runSession sampleCfg ([askCodeEvent] ++ [askCodeEvent])) =
      outbound (runSession sampleCfg [askCodeEvent]) ++
        phaseAction sampleCfg askCodeEvent.world.existsSync askCodeEvent.msg.sender
          Phase.askCode :=
  session_answers_every_time sampleCfg [askCodeEvent] askCodeEvent Phase.askCode
    (by decide) (by decide)

/-! ## The configuration -/

/-- The property read by `ensureConfig` is the value the file gives for the key. -/
theorem prop_getD_eq (file : Option Json) (key : Str) (v : Option Json)
    (h : (file.getD (.obj [])).prop key = .ok v) : v = fileValue file key := by
  cases file with
  | none =>
    simp only [Option.getD_none, Json.prop, List.lookup] at h
    cases h; rfl
  | some j =>
    cases j <;> simp only [Option.getD_some, Json.prop] at h <;> cases h <;> rfl

/-- Unless the file parses to `null`, its properties can be read. -/
theorem prop_getD_ok (file : Option Json) (key : Str) (h : file ≠ some Json.null) :
    ∃ v, (file.getD (.obj [])).prop key = .ok v := by
  cases file with
  | none => exact ⟨_, rfl⟩
  | some j =>
    cases j with
    | null => exact absurd rfl h
    | bool b => exact ⟨_, rfl⟩
    | num x => exact ⟨_, rfl⟩
    | str s => exact ⟨_, rfl⟩
    | arr items => exact ⟨_, rfl⟩
    | obj props => exact ⟨_, rfl⟩

theorem firstTruthy_ok (e : Option Str) (file : Option Json) (key : Str)
    (h : file ≠ some Json.null) : ∃ x, firstTruthy e (file.getD (.obj [])) key = .ok x := by
  obtain ⟨v, hv⟩ := prop_getD_ok file key h
  unfold firstTruthy
  split
  · exact ⟨_, rfl⟩
  · rw [hv]
    cases v <;> exact ⟨_, rfl⟩

theorem not_envSet_iff (e : Option Str) : ¬ envSet e ↔ e = none ∨ e = some [] := by
  unfold envSet
  cases e with
  | none => simp
  | some s => cases s <;> simp

/-- The rule of a field, for one field. -/
theorem fieldRule_of_firstTruthy (e : Option Str) (file : Option Json) (key : Str)
    (answer : Str) (x : Json) (h : firstTruthy e (file.getD (.obj [])) key = .ok x) :
    FieldRule e (fileValue file key) answer (askIfEmpty x answer) := by
  by_cases he : envSet e
  · obtain ⟨s, hs, hne⟩ := he
    obtain ⟨c, cs, rfl⟩ := List.exists_cons_of_ne_nil hne
    subst hs
    simp only [firstTruthy] at h
    cases h
    have hv : askIfEmpty (Json.str (c :: cs)) answer = Json.str (c :: cs) := by
      simp [askIfEmpty, Json.truthy]
    have hset : envSet (some (c :: cs)) := ⟨_, rfl, by simp⟩
    rw [hv]
    refine ⟨?_, fun hn => absurd hset hn, fun hn => absurd hset hn, ?_⟩
    · intro s hs _
      cases hs; rfl
    · exact ⟨fun _ => Or.inl hset, fun _ => ⟨_, rfl, by simp⟩⟩
  · have hx : ∃ v, (file.getD (.obj [])).prop key = .ok v ∧
        x = match v with
          | some j => if j.truthy then j else .str []
          | none => .str [] := by
      rcases (not_envSet_iff e).1 he with h0 | h0 <;> subst h0 <;>
        simp only [firstTruthy] at h <;>
        cases hp : (file.getD (.obj [])).prop key with
        | error err => rw [hp] at h; cases h
        | ok v =>
          rw [hp] at h
          refine ⟨v, rfl, ?_⟩
          cases v <;> simp only at h <;> cases h <;> rfl
    obtain ⟨v, hv, hxv⟩ := hx
    have hfv := prop_getD_eq file key v hv
    rw [← hfv]
    have hnot : ∀ s, e = some s → s ≠ [] → False := fun s hs hne => he ⟨s, hs, hne⟩
    cases v with
    | none =>
      have hx0 : x = .str [] := hxv
      have hval : askIfEmpty x answer = .str (trim answer) := by
        simp [hx0, askIfEmpty, Json.truthy]
      rw [hval]
      refine ⟨fun s hs hne => (hnot s hs hne).elim, ?_, fun _ _ => rfl, ?_⟩
      · intro _ j hj
        cases hj
      · constructor
        · rintro ⟨s, hs, hne⟩
          cases hs
          exact Or.inr (Or.inr ⟨he, fun j hj => (by cases hj), hne⟩)
        · rintro (h1 | ⟨_, j, hj, _⟩ | ⟨_, _, hne⟩)
          · exact absurd h1 he
          · cases hj
          · exact ⟨_, rfl, hne⟩
    | some j =>
      by_cases hj : j.truthy = true
      · have hx0 : x = j := by simpa [hj] using hxv
        have hval : askIfEmpty x answer = j := by
          simp [hx0, askIfEmpty, hj]
        rw [hval]
        refine ⟨fun s hs hne => (hnot s hs hne).elim, ?_, ?_, ?_⟩
        · intro _ j2 hj2 _
          cases hj2; rfl
        · intro _ hall
          have := hall j rfl
          rw [hj] at this
          cases this
        · constructor
          · intro hs
            exact Or.inr (Or.inl ⟨he, j, rfl, hs⟩)
          · rintro (h1 | ⟨_, j2, hj2, hs⟩ | ⟨_, hall, _⟩)
            · exact absurd h1 he
            · cases hj2; exact hs
            · have := hall j rfl
              rw [hj] at this
              cases this
      · have hj0 : j.truthy = false := by simpa using hj
        have hx0 : x = .str [] := by simpa [hj0] using hxv
        have hval : askIfEmpty x answer = .str (trim answer) := by
          simp [hx0, askIfEmpty, Json.truthy]
        rw [hval]
        have hall : ∀ j2, some j = some j2 → j2.truthy = false := by
          intro j2 hj2
          cases hj2; exact hj0
        refine ⟨fun s hs hne => (hnot s hs hne).elim, ?_, fun _ _ => rfl, ?_⟩
        · intro _ j2 hj2 ht
          cases hj2
          rw [hj0] at ht
          cases ht
        · constructor
          · rintro ⟨s, hs, hne⟩
            cases hs
            exact Or.inr (Or.inr ⟨he, hall, hne⟩)
          · rintro (h1 | ⟨_, j2, hj2, s, hs, hne⟩ | ⟨_, _, hne⟩)
            · exact absurd h1 he
            · cases hj2
              subst hs
              cases s with
              | nil => exact absurd rfl hne
              | cons c cs => simp [Json.truthy] at hj0
            · exact ⟨_, rfl, hne⟩

/-- C10, as stated, fails: with no environment variable, no `config.json`, and prompts answered
by return or by blanks, `ensureConfig` returns a configuration whose four fields are empty. -/
theorem ensureConfig_counterexample :
    ensureConfig emptyEnv none blankAnswers =
      .ok { target := .str [], code := .str [], img1 := .str [], img2 := .str [] } := by
  rfl

/-- A `config.json` that parses to `null` makes `ensureConfig` throw, the property of `null`
being read outside the `try` block. -/
theorem ensureConfig_null :
    ensureConfig emptyEnv (some Json.null) blankAnswers = .error JsError.typeError := by
  rfl

/-- C10, amended.  Unless `config.json` parses to `null`, `ensureConfig` returns a
configuration; and each field of a configuration it returns is its environment variable when
that is set and non-empty, else the value `config.json` gives it when that is truthy, returned
as it is, else the answer typed at its prompt, trimmed.  A field is thus a non-empty string
exactly when the variable is set and non-empty, or else the file gives a non-empty string, or
else the file gives no truthy value and the trimmed answer is not empty (`FieldRule`). -/
theorem ensureConfig_fields (env : Env) (file : Option Json) (ans : Answers) :
    (file ≠ some Json.null → ∃ cfg, ensureConfig env file ans = .ok cfg) ∧
    ∀ cfg, ensureConfig env file ans = .ok cfg →
      FieldRule env.WA_TARGET (fileValue file "target".toList) ans.target cfg.target ∧
      FieldRule env.INIT_CODE (fileValue file "code".toList) ans.code cfg.code ∧
      FieldRule env.IMG1_PATH (fileValue file "img1".toList) ans.img1 cfg.img1 ∧
      FieldRule env.IMG2_PATH (fileValue file "img2".toList) ans.img2 cfg.img2 := by
  constructor
  · intro hnull
    obtain ⟨x1, h1⟩ := firstTruthy_ok env.WA_TARGET file "target".toList hnull
    obtain ⟨x2, h2⟩ := firstTruthy_ok env.INIT_CODE file "code".toList hnull
    obtain ⟨x3, h3⟩ := firstTruthy_ok env.IMG1_PATH file "img1".toList hnull
    obtain ⟨x4, h4⟩ := firstTruthy_ok env.IMG2_PATH file "img2".toList hnull
    exact ⟨{ target := askIfEmpty x1 ans.target, code := askIfEmpty x2 ans.code,
             img1 := askIfEmpty x3 ans.img1, img2 := askIfEmpty x4 ans.img2 },
      by simp only [ensureConfig, h1, h2, h3, h4]⟩
  · intro cfg hcfg
    simp only [ensureConfig] at hcfg
    cases h1 : firstTruthy env.WA_TARGET (file.getD (.obj [])) "target".toList with
    | error err => rw [h1] at hcfg; cases hcfg
    | ok x1 =>
      cases h2 : firstTruthy env.INIT_CODE (file.getD (.obj [])) "code".toList with
      | error err => rw [h1, h2] at hcfg; cases hcfg
      | ok x2 =>
        cases h3 : firstTruthy env.IMG1_PATH (file.getD (.obj [])) "img1".toList with
        | error err => rw [h1, h2, h3] at hcfg; cases hcfg
        | ok x3 =>
          cases h4 : firstTruthy env.IMG2_PATH (file.getD (.obj [])) "img2".toList with
          | error err => rw [h1, h2, h3, h4] at hcfg; cases hcfg
          | ok x4 =>
            rw [h1, h2, h3, h4] at hcfg
            cases hcfg
            exact ⟨fieldRule_of_firstTruthy _ file _ _ x1 h1,
              fieldRule_of_firstTruthy _ file _ _ x2 h2,
              fieldRule_of_firstTruthy _ file _ _ x3 h3,
              fieldRule_of_firstTruthy _ file _ _ x4 h4⟩

/-- A `config.json` whose `target` is the number 6281234567890: the configuration is returned,
its `target` is that number and not a string, its `code` the string of the file, its `img1` the
environment variable, its `img2` the trimmed answer. -/
theorem ensureConfig_fields_witness :
    ensureConfig img1Env (some numericFile) pathAnswers =
        .ok { target := .num 6281234567890, code := .str "F123ABCDE".toList,
              img1 := .str "/home/bot/tutup.jpg".toList,
              img2 := .str "/home/bot/ktp.jpg".toList } ∧
      FieldRule img1Env.WA_TARGET (fileValue (some numericFile) "target".toList)
        pathAnswers.target (.num 6281234567890) ∧
      FieldRule img1Env.IMG2_PATH (fileValue (some numericFile) "img2".toList)
        pathAnswers.img2 (.str "/home/bot/ktp.jpg".toList) :=
  ⟨rfl,
   ((ensureConfig_fields img1Env (some numericFile) pathAnswers).2
      { target := .num 6281234567890, code := .str "F123ABCDE".toList,
        img1 := .str "/home/bot/tutup.jpg".toList,
        img2 := .str "/home/bot/ktp.jpg".toList } rfl).1,
   ((ensureConfig_fields img1Env (some numericFile) pathAnswers).2
      { target := .num 6281234567890, code := .str "F123ABCDE".toList,
        img1 := .str "/home/bot/tutup.jpg".toList,
        img2 := .str "/home/bot/ktp.jpg".toList } rfl).2.2.2⟩

/-! ## The normaliser and the matcher -/

/-- C5, as stated, fails: `blankLineText` is the phrase `codePhrase` of `askCode` with nothing
but a blank line added, next to one of its blanks, and `matchAny` does not find the phrase.
Blanks and line breaks are collapsed apart from each other. -/
theorem matchAny_of_contains_counterexample :
    codePhrase ∈ TRIGGERS Phase.askCode ∧
      blankLineText.filter (fun c => c != '\n') = codePhrase ∧
      matchAny blankLineText (TRIGGERS Phase.askCode) = false := by
  refine ⟨by decide, by decide, by decide⟩

/-- C5, amended.  When the ASCII phrase `p` is in the list `L` and the text `t`, of any
characters, contains `p` with letters in either case, blanks or tabs of `p` accompanied by
further blanks or tabs, and line breaks of `p` repeated (`Variant p q`, with `q` a contiguous
part of `t`), `matchAny t L` is true, whatever the builtin does outside ASCII. -/
theorem matchAny_of_contains (lower : Str → Str) (hl : LowerCasing lower) (p : Str)
    (L : List Str) (q t : Str) (hascii : isAscii p) (hp : p ∈ L) (hq : Variant p q)
    (ht : q <:+: t) : matchAnyWith lower t L = true := by
  obtain ⟨a, b, rfl⟩ := ht
  apply matchAnyWith_of_infix lower _ _ p hp
  have e : normWith lower p = normWith lower q := by
    unfold normWith
    rw [hl.ascii p hascii, hl.ascii q (hq.isAscii hascii)]
    exact congrArg trim hq.squeeze_eq.symm
  rw [e]
  exact normWith_infix lower hl a q b (hq.isAscii hascii)

/-- A phrase of `askCode` written with a capital and a doubled blank, inside a longer text, is
found. -/
theorem matchAny_of_contains_witness :
    matchAny codePhraseMessage (TRIGGERS Phase.askCode) = true :=
  matchAny_of_contains toLowerCase toLowerCase_lowerCasing codePhrase (TRIGGERS Phase.askCode)
    codePhraseVariant codePhraseMessage
    (by decide) (by decide)
    (Variant.blankAfter "Pastikan".toList "kode unik berjumlah 9 karakter".toList ' ' ' '
      (by decide) (by decide)
      (Variant.letterCase [] "astikan kode unik berjumlah 9 karakter".toList 'p' 'P'
        (by decide) Variant.same))
    ⟨"Halo kak,\n".toList, " ya.".toList, rfl⟩

/-- C6.  The function `norm` is idempotent, for every string and with every lower-casing that
has the properties `LowerCasing` of the builtin. -/
theorem norm_idempotent (lower : Str → Str) (hl : LowerCasing lower) (s : Str) :
    normWith lower (normWith lower s) = normWith lower s :=
  normWith_fixed lower hl s

/-- Normalising twice a text with capitals, tabs, carriage returns and blank lines. -/
theorem norm_idempotent_witness :
    norm (norm "  Halo\tKAK \r\n\r\n\n Kode  UNIK\n ".toList) =
      norm "  Halo\tKAK \r\n\r\n\n Kode  UNIK\n ".toList :=
  norm_idempotent toLowerCase toLowerCase_lowerCasing _

end BotSendHydro
